import Mathlib

/-!
Verification of the cal-rs core: the `Calendar` date-navigation model
(`src/cal-core/src/lib.rs`) and the `EventManager` store
(`src/cal-events/src/lib.rs`).

The code uses the chrono crate for dates.  Chrono's proleptic-Gregorian
calendar functions (`NaiveDate::from_ymd_opt`, `weekday`, `with_day`,
`signed_duration_since`, `date_naive`, ordering of `DateTime<Local>`) are
modelled below as pure functions on a `Date`/`LDateTime` record; the
repository's own functions are then translated statement by statement.
-/

/-- A calendar date, as chrono's `NaiveDate`: year (astronomical numbering),
month 1..12, day 1..31. -/
structure Date where
  year : Int
  month : Nat
  day : Nat
  deriving DecidableEq, Repr

/-- Chrono model: proleptic-Gregorian leap-year rule. -/
def isLeapYear (y : Int) : Bool :=
  (y % 4 == 0 && y % 100 != 0) || y % 400 == 0

/-- Chrono model: number of days in month `m` of year `y`. -/
def daysInMonthOf (y : Int) (m : Nat) : Nat :=
  if m = 2 then (if isLeapYear y then 29 else 28)
  else if m = 4 ∨ m = 6 ∨ m = 9 ∨ m = 11 then 30
  else 31

/-- Chrono model: `NaiveDate::from_ymd_opt`, succeeding exactly on valid
year/month/day triples. -/
def fromYmdOpt (y : Int) (m d : Nat) : Option Date :=
  if 1 ≤ m ∧ m ≤ 12 ∧ 1 ≤ d ∧ d ≤ daysInMonthOf y m then some ⟨y, m, d⟩ else none

/-- A date is valid when `from_ymd_opt` would accept its components; every
chrono `NaiveDate` satisfies this by construction. -/
def Date.Valid (dt : Date) : Prop :=
  1 ≤ dt.month ∧ dt.month ≤ 12 ∧ 1 ≤ dt.day ∧ dt.day ≤ daysInMonthOf dt.year dt.month

instance (dt : Date) : Decidable dt.Valid := by
  unfold Date.Valid; infer_instance

/-- Days before January 1st of year `y`, counted from 0001-01-01 as day 0,
using floor division so that negative (proleptic) years are handled. -/
def daysBeforeYear (y : Int) : Int :=
  365 * (y - 1) + (y - 1) / 4 - (y - 1) / 100 + (y - 1) / 400

/-- Cumulative day count of the months before month `m` in a common year. -/
def daysBeforeMonthCommon (m : Nat) : Nat :=
  match m with
  | 1 => 0 | 2 => 31 | 3 => 59 | 4 => 90 | 5 => 120 | 6 => 151
  | 7 => 181 | 8 => 212 | 9 => 243 | 10 => 273 | 11 => 304 | 12 => 334
  | _ => 0

/-- Days in year `y` before the first of month `m`. -/
def daysBeforeMonth (y : Int) (m : Nat) : Int :=
  (daysBeforeMonthCommon m : Int) + (if 3 ≤ m ∧ isLeapYear y then 1 else 0)

/-- Chrono model: the date's day number, with 0001-01-01 as day 0. -/
def toEpochDay (dt : Date) : Int :=
  daysBeforeYear dt.year + daysBeforeMonth dt.year dt.month + ((dt.day : Int) - 1)

/-- Chrono model: `Weekday::num_days_from_sunday` of the date's weekday
(Sunday = 0).  Day 0 (0001-01-01, proleptic Gregorian) is a Monday. -/
def numDaysFromSunday (dt : Date) : Nat :=
  ((toEpochDay dt + 1) % 7).toNat

/-- Chrono model: `with_day`, replacing the day-of-month when the result is a
valid date and returning `none` otherwise. -/
def Date.with_day (dt : Date) (d : Nat) : Option Date :=
  if 1 ≤ d ∧ d ≤ daysInMonthOf dt.year dt.month then some { dt with day := d }
  else none

/-- Chrono model: the calendar day before `dt` (`pred_opt`, with the
month and year borrows). -/
def prevDay (dt : Date) : Date :=
  if 1 < dt.day then ⟨dt.year, dt.month, dt.day - 1⟩
  else if 1 < dt.month then ⟨dt.year, dt.month - 1, daysInMonthOf dt.year (dt.month - 1)⟩
  else ⟨dt.year - 1, 12, 31⟩

/-- Chrono model for the `DateTime::from_naive_utc_and_offset` store followed
by a `naive_local()` read, as used in `next_month`/`prev_month`: the naive
datetime `dt` at `00:00:00` is stored as **UTC**, so reading the local date
back adds the offset `o` (seconds, in chrono's `FixedOffset` range
`-86400 < o < 86400`): the date is unchanged for a non-negative offset and
the previous calendar day for a negative one. -/
def utcMidnightReadLocal (dt : Date) (o : Int) : Date :=
  if 0 ≤ o then dt else prevDay dt

/-! ## cal-core: the `Calendar` -/

/-- The `Calendar` state: `current_date` anchors the displayed month,
`selected_date` is the highlighted day.  The source stores `DateTime<Local>`
values; the operations read only their local calendar dates plus, in
`next_month`/`prev_month`, the UTC offset carried by `current_date`
(`*self.current_date.offset()`), so the embedding keeps the two local dates
and that offset in seconds (chrono keeps it in `-86400 < offset < 86400`;
no operation ever changes it). -/
structure Calendar where
  current_date : Date
  selected_date : Date
  offset : Int
  deriving DecidableEq, Repr

/-- `Calendar::next_month`: computes the first day of the month after the
anchor's local month (December rolling to January of the next year), then
stores it via `from_naive_utc_and_offset(first.and_hms(0,0,0), offset)` —
that is, as a UTC instant — so the anchor's new *local* date is that first
day shifted by the offset (`utcMidnightReadLocal`).  `none` models the
`unwrap` panic on an invalid constructed date (never reached from a valid
state). -/
def Calendar.next_month (c : Calendar) : Option Calendar :=
  let naive_date := c.current_date
  let next :=
    if naive_date.month = 12 then fromYmdOpt (naive_date.year + 1) 1 1
    else fromYmdOpt naive_date.year (naive_date.month + 1) 1
  match next with
  | some d => some { c with current_date := utcMidnightReadLocal d c.offset }
  | none => none

/-- `Calendar::prev_month`: symmetric to `next_month` (January rolling to
December of the previous year), with the same UTC store / local read of the
target month's first day. -/
def Calendar.prev_month (c : Calendar) : Option Calendar :=
  let naive_date := c.current_date
  let prev :=
    if naive_date.month = 1 then fromYmdOpt (naive_date.year - 1) 12 1
    else fromYmdOpt naive_date.year (naive_date.month - 1) 1
  match prev with
  | some d => some { c with current_date := utcMidnightReadLocal d c.offset }
  | none => none

/-- The `u32` cast applied to `signed_duration_since(..).num_days()` in
`get_month_grid`. -/
def u32cast (i : Int) : Nat := (i % (2 ^ 32 : Int)).toNat

/-- The cell-filling loop of `get_month_grid`, flattened over the 42 cell
indices `i = week * 7 + day` (the first argument counts the remaining
cells): week-0 cells before the first weekday are skipped, then days
`1..days_in_month` are written in order. -/
def fillFrom (fw dim : Nat) : Nat → Nat → Nat → List (Option Nat)
  | 0, _, _ => []
  | n + 1, i, cd =>
    if i / 7 = 0 ∧ i % 7 < fw then none :: fillFrom fw dim n (i + 1) cd
    else if cd ≤ dim then some cd :: fillFrom fw dim n (i + 1) (cd + 1)
    else none :: fillFrom fw dim n (i + 1) cd

/-- The 6×7 grid produced for first weekday `fw` and month length `dim`:
the 42 sequentially filled cells regrouped into 6 rows of 7. -/
def buildGrid (fw dim : Nat) : List (List (Option Nat)) :=
  let cells := fillFrom fw dim 42 0 1
  [cells.take 7, (cells.drop 7).take 7, (cells.drop 14).take 7,
   (cells.drop 21).take 7, (cells.drop 28).take 7, (cells.drop 35).take 7]

/-- `Calendar::get_month_grid`: 6 rows × 7 columns of optional day numbers
for the anchor's month.  `days_in_month` is computed, as in the source, as
the day difference between the first of the next month and the first of this
month; `none` models the `unwrap` panics on `from_ymd_opt` (never reached
from a valid state). -/
def Calendar.get_month_grid (c : Calendar) : Option (List (List (Option Nat))) :=
  let naive_date := c.current_date
  match fromYmdOpt naive_date.year naive_date.month 1 with
  | none => none
  | some first_day =>
    match (if naive_date.month = 12 then fromYmdOpt (naive_date.year + 1) 1 1
           else fromYmdOpt naive_date.year (naive_date.month + 1) 1) with
    | none => none
    | some next_first =>
      let days_in_month := u32cast (toEpochDay next_first - toEpochDay first_day)
      let first_weekday := numDaysFromSunday first_day
      some (buildGrid first_weekday days_in_month)

/-- One row of the linear scan in `move_selection`: position of the first
cell holding `current_day`, scanning from column index `i`. -/
def findInRow (current_day : Nat) : List (Option Nat) → Nat → Option Nat
  | [], _ => none
  | some d :: rest, i => if d = current_day then some i else findInRow current_day rest (i + 1)
  | none :: rest, i => findInRow current_day rest (i + 1)

/-- The labelled scan of `move_selection`: `(week, position)` of the first
cell holding `current_day`, defaulting to `(0, 0)` when absent (the loop
variables keep their initial values). -/
def findPos (current_day : Nat) : List (List (Option Nat)) → Option (Nat × Nat)
  | [] => none
  | row :: rest =>
    match findInRow current_day row 0 with
    | some p => some (0, p)
    | none =>
      match findPos current_day rest with
      | some (w, p) => some (w + 1, p)
      | none => none

/-- The `grid.get(w).map(|row| row.get(p)).flatten()` access pattern of
`move_selection`. -/
def cellAt (grid : List (List (Option Nat))) (w p : Nat) : Option Nat :=
  (grid[w]?.map (fun row => row[p]?)).join.join

/-- `Calendar::move_selection`: scans the grid for the selected day's
number, steps one cell in the requested direction, and either moves the
selection (`true`), refuses (`false`), or panics (`none`, from the
`with_day(..).unwrap()` call). -/
def Calendar.move_selection (c : Calendar) (direction : String) : Option (Calendar × Bool) :=
  match c.get_month_grid with
  | none => none
  | some current_grid =>
    let current_day := c.selected_date.day
    let (current_week, current_pos) := (findPos current_day current_grid).getD (0, 0)
    if direction = "left" then
      if current_pos > 0 then
        match cellAt current_grid current_week (current_pos - 1) with
        | some new_day =>
          match c.selected_date.with_day new_day with
          | some d => some ({ c with selected_date := d }, true)
          | none => none
        | none => some (c, false)
      else some (c, false)
    else if direction = "right" then
      if current_pos < 6 then
        match cellAt current_grid current_week (current_pos + 1) with
        | some new_day =>
          match c.selected_date.with_day new_day with
          | some d => some ({ c with selected_date := d }, true)
          | none => none
        | none => some (c, false)
      else some (c, false)
    else if direction = "up" then
      if current_week > 0 then
        match cellAt current_grid (current_week - 1) current_pos with
        | some new_day =>
          match c.selected_date.with_day new_day with
          | some d => some ({ c with selected_date := d }, true)
          | none => none
        | none => some (c, false)
      else some (c, false)
    else if direction = "down" then
      if current_week < 5 then
        match cellAt current_grid (current_week + 1) current_pos with
        | some new_day =>
          match c.selected_date.with_day new_day with
          | some d => some ({ c with selected_date := d }, true)
          | none => none
        | none => some (c, false)
      else some (c, false)
    else some (c, false)

/-! ## cal-events: `Event` and `EventManager` -/

/-- A local timestamp, as chrono's `DateTime<Local>`: the calendar date plus
the minute of that day.  `date_naive()` projects the date; the instant
ordering is day-count first, minute second. -/
structure LDateTime where
  date : Date
  minute : Nat
  deriving DecidableEq, Repr

/-- The absolute instant of a local timestamp, in minutes; `DateTime` values
compare by this instant. -/
def linstant (t : LDateTime) : Int :=
  toEpochDay t.date * 1440 + t.minute

/-- The error taxonomy of the event store: the two `anyhow` failure messages
of `cal-events`. -/
inductive EventError where
  | invalidTimeRange
  | notFound
  deriving DecidableEq, Repr

/-- An `Event`: identifier (`Uuid`, modelled as `Nat`), title, optional
description, start and end instants. -/
structure Event where
  id : Nat
  title : String
  description : Option String
  start_time : LDateTime
  end_time : LDateTime
  deriving DecidableEq, Repr

/-- `Event::new`: rejects `end_time <= start_time` with the invalid-range
error, otherwise builds the event with a freshly generated identifier (the
`Uuid::new_v4` draw is passed in as `id`). -/
def Event.new (id : Nat) (title : String) (description : Option String)
    (start_time end_time : LDateTime) : Except EventError Event :=
  if linstant end_time ≤ linstant start_time then .error .invalidTimeRange
  else .ok ⟨id, title, description, start_time, end_time⟩

/-- The `EventManager` store: a `HashMap<Uuid, Event>`, modelled as an
association list whose keys are kept unique by insertion. -/
structure EventManager where
  events : List (Nat × Event)
  deriving DecidableEq, Repr

/-- `HashMap::insert`: bind `k` to `v`, replacing any previous binding. -/
def hmInsert (l : List (Nat × Event)) (k : Nat) (v : Event) : List (Nat × Event) :=
  (k, v) :: l.filter (fun p => p.1 != k)

/-- `EventManager::add_event`: insert at the event's own identifier and
return that identifier. -/
def EventManager.add_event (m : EventManager) (event : Event) :
    Except EventError (Nat × EventManager) :=
  .ok (event.id, ⟨hmInsert m.events event.id event⟩)

/-- `EventManager::delete_event`: `HashMap::remove`, failing with the
not-found error when the identifier is absent. -/
def EventManager.delete_event (m : EventManager) (id : Nat) :
    Except EventError EventManager :=
  match m.events.lookup id with
  | some _ => .ok ⟨m.events.filter (fun p => p.1 != id)⟩
  | none => .error .notFound

/-- `EventManager::edit_event`: requires the identifier to be present,
overwrites the updated event's identifier with the original one, and
reinserts. -/
def EventManager.edit_event (m : EventManager) (id : Nat) (updated_event : Event) :
    Except EventError EventManager :=
  if (m.events.lookup id).isSome then
    .ok ⟨hmInsert m.events id { updated_event with id := id }⟩
  else .error .notFound

/-- `EventManager::get_event`. -/
def EventManager.get_event (m : EventManager) (id : Nat) : Option Event :=
  m.events.lookup id

/-- `EventManager::list_events`: the stored events (`HashMap::values`). -/
def EventManager.list_events (m : EventManager) : List Event :=
  m.events.map Prod.snd

/-- `EventManager::list_events_for_day`: the stored events whose start
instant's `date_naive()` equals the query's. -/
def EventManager.list_events_for_day (m : EventManager) (date : LDateTime) : List Event :=
  m.list_events.filter (fun event => event.start_time.date == date.date)

/-- Store states reachable from the empty store through the public
operations, inserting or editing only events produced by the validated
constructor `Event::new`. -/
inductive Reachable : EventManager → Prop where
  | empty : Reachable ⟨[]⟩
  | add {m : EventManager} {id : Nat} {title : String} {description : Option String}
      {s e : LDateTime} {ev : Event} {i : Nat} {m' : EventManager} :
      Reachable m → Event.new id title description s e = .ok ev →
      m.add_event ev = .ok (i, m') → Reachable m'
  | edit {m : EventManager} {i id : Nat} {title : String} {description : Option String}
      {s e : LDateTime} {ev : Event} {m' : EventManager} :
      Reachable m → Event.new id title description s e = .ok ev →
      m.edit_event i ev = .ok m' → Reachable m'
  | del {m : EventManager} {i : Nat} {m' : EventManager} :
      Reachable m → m.delete_event i = .ok m' → Reachable m'

/-- A concrete timestamp used by the witnesses: 2021-10-10, 10:00. -/
def sampleStart : LDateTime := ⟨⟨2021, 10, 10⟩, 600⟩

/-- A concrete timestamp used by the witnesses: 2021-10-10, 11:00. -/
def sampleEnd : LDateTime := ⟨⟨2021, 10, 10⟩, 660⟩

/-- A concrete event used by the witnesses. -/
def sampleEvent : Event := ⟨7, "standup", none, sampleStart, sampleEnd⟩

/-- A second concrete event used by the witnesses (same identifier draw,
different fields). -/
def sampleEvent2 : Event := ⟨9, "retro", some "notes", sampleStart, sampleEnd⟩

/-! ## Statement-side helpers -/

/-- The claim's destination cell: one step from `(w, p)` in the given
direction, `none` when that step leaves the fixed 6×7 grid. -/
def destCell (grid : List (List (Option Nat))) (w p : Nat) (direction : String) : Option Nat :=
  if direction = "left" then (if p > 0 then cellAt grid w (p - 1) else none)
  else if direction = "right" then (if p < 6 then cellAt grid w (p + 1) else none)
  else if direction = "up" then (if w > 0 then cellAt grid (w - 1) p else none)
  else if direction = "down" then (if w < 5 then cellAt grid (w + 1) p else none)
  else none

/-- The expected content of flat cell `i` of the month grid: day numbers
`1..dim` starting at cell `fw`, every other cell empty. -/
def gridSpecCell (fw dim i : Nat) : Option Nat :=
  if fw ≤ i ∧ i < fw + dim then some (i - fw + 1) else none

/-- Number of non-empty cells of a grid. -/
def countSome (g : List (List (Option Nat))) : Nat :=
  (g.map (fun row => (row.filterMap id).length)).sum

/-- Full shape specification of the generated grid: 6 rows of 7 cells, every
cell as `gridSpecCell`, and exactly `dim` non-empty cells. -/
def GridOK (fw dim : Nat) : Prop :=
  (buildGrid fw dim).map List.length = [7, 7, 7, 7, 7, 7] ∧
  (∀ w, w < 6 → ∀ p, p < 7 →
    cellAt (buildGrid fw dim) w p = gridSpecCell fw dim (7 * w + p)) ∧
  countSome (buildGrid fw dim) = dim

instance (fw dim : Nat) : Decidable (GridOK fw dim) := by
  unfold GridOK; infer_instance

/-! ## Arithmetic lemmas about the chrono model -/

lemma daysInMonthOf_bounds (y : Int) (m : Nat) :
    28 ≤ daysInMonthOf y m ∧ daysInMonthOf y m ≤ 31 := by
  unfold daysInMonthOf; split_ifs <;> omega

lemma numDaysFromSunday_lt (dt : Date) : numDaysFromSunday dt < 7 := by
  unfold numDaysFromSunday; omega

/-- The day difference from the first of a month to the first of the next
month is that month's length. -/
lemma month_length (y : Int) (m : Nat) (h1 : 1 ≤ m) (h2 : m ≤ 12) :
    toEpochDay ⟨(if m = 12 then y + 1 else y), (if m = 12 then 1 else m + 1), 1⟩ -
      toEpochDay ⟨y, m, 1⟩ = (daysInMonthOf y m : Int) := by
  interval_cases m <;>
    simp only [toEpochDay, daysBeforeYear, daysBeforeMonth, daysBeforeMonthCommon,
      daysInMonthOf, isLeapYear] <;>
    norm_num <;>
    split_ifs with h <;>
    simp only [Bool.or_eq_true, Bool.and_eq_true, beq_iff_eq, bne_iff_ne] at h <;>
    omega

lemma u32cast_coe (n : Nat) (h : n < 2 ^ 32) : u32cast (n : Int) = n := by
  unfold u32cast; omega

/-- The grid layout is fully characterised for every first weekday and every
possible month length. -/
lemma gridOK_all : ∀ fw, fw < 7 → ∀ dim, dim < 32 → 28 ≤ dim → GridOK fw dim := by
  decide

lemma fromYmdOpt_first (y : Int) (m : Nat) (h1 : 1 ≤ m) (h2 : m ≤ 12) :
    fromYmdOpt y m 1 = some ⟨y, m, 1⟩ := by
  have hd := daysInMonthOf_bounds y m
  unfold fromYmdOpt
  rw [if_pos ⟨h1, h2, le_refl 1, by omega⟩]

/-- Under a valid anchor month, `get_month_grid` returns the 6×7 grid for
that month's first weekday and day count. -/
lemma get_month_grid_eq (c : Calendar) (h1 : 1 ≤ c.current_date.month)
    (h2 : c.current_date.month ≤ 12) :
    c.get_month_grid =
      some (buildGrid (numDaysFromSunday ⟨c.current_date.year, c.current_date.month, 1⟩)
        (daysInMonthOf c.current_date.year c.current_date.month)) := by
  obtain ⟨⟨y, m, d⟩, sel, off⟩ := c
  simp only at h1 h2 ⊢
  have hml := month_length y m h1 h2
  have hdb := daysInMonthOf_bounds y m
  have hcast : u32cast (toEpochDay ⟨(if m = 12 then y + 1 else y), (if m = 12 then 1 else m + 1), 1⟩ -
      toEpochDay ⟨y, m, 1⟩) = daysInMonthOf y m := by
    rw [hml, u32cast_coe _ (by omega)]
  by_cases h12 : m = 12
  · subst h12
    norm_num at hcast
    simp only [Calendar.get_month_grid, fromYmdOpt_first y 12 h1 h2]
    norm_num [fromYmdOpt_first (y + 1) 1 (by omega) (by omega), hcast]
  · simp only [Calendar.get_month_grid, fromYmdOpt_first y m h1 h2, if_neg h12]
    simp only [if_neg h12] at hcast
    rw [fromYmdOpt_first y (m + 1) (by omega) (by omega)]
    simp only [hcast]

lemma cellAt_some (g : List (List (Option Nat))) (w p nd : Nat)
    (h : cellAt g w p = some nd) :
    ∃ row, g[w]? = some row ∧ row[p]? = some (some nd) := by
  unfold cellAt at h
  cases hw : g[w]? with
  | none => rw [hw] at h; simp [Option.join] at h
  | some row =>
    rw [hw] at h
    have h2 : (row[p]?).join = some nd := by simpa [Option.join] using h
    cases hp : row[p]? with
    | none => rw [hp] at h2; simp [Option.join] at h2
    | some cell =>
      rw [hp] at h2
      simp [Option.join] at h2
      exact ⟨row, rfl, by rw [hp, h2]⟩

lemma cellAt_bounds (g : List (List (Option Nat))) (w p nd : Nat)
    (hshape : g.map List.length = [7, 7, 7, 7, 7, 7])
    (h : cellAt g w p = some nd) : w < 6 ∧ p < 7 := by
  obtain ⟨row, hw, hp⟩ := cellAt_some g w p nd h
  have hm : (g.map List.length)[w]? = some row.length := by
    rw [List.getElem?_map, hw]; rfl
  rw [hshape] at hm
  have hw6 : w < 6 := by
    by_contra hcon
    rw [List.getElem?_eq_none (by simp; omega)] at hm
    cases hm
  have hr : row.length = 7 := by
    interval_cases w <;> simp at hm <;> omega
  refine ⟨hw6, ?_⟩
  by_contra hcon
  rw [List.getElem?_eq_none (by omega)] at hp
  cases hp

/-- Every day number stored in a generated grid lies in `1..dim`. -/
lemma cell_range (fw dim w p nd : Nat) (hfw : fw < 7) (hdim1 : 28 ≤ dim) (hdim2 : dim ≤ 31)
    (h : cellAt (buildGrid fw dim) w p = some nd) : 1 ≤ nd ∧ nd ≤ dim := by
  obtain ⟨hshape, hchar, _⟩ := gridOK_all fw hfw dim (by omega) hdim1
  obtain ⟨hw, hp⟩ := cellAt_bounds _ w p nd hshape h
  rw [hchar w hw p hp] at h
  unfold gridSpecCell at h
  split_ifs at h with hc
  injection h with h
  omega

/-! ## Claim theorems -/

/-- C1: for every anchor year and valid month, `get_month_grid` returns a
6-row by 7-column grid whose cell at `(w, p)` holds day `7w + p - fw + 1`
exactly when `fw ≤ 7w + p < fw + days_in_month` (so the days `1..dim` are
contiguous in row-major order, starting in row 0 at the column of the
month's first weekday, Sunday = 0), all other cells are empty, and exactly
`days_in_month` cells are non-empty. -/
theorem grid_layout_spec (c : Calendar)
    (h1 : 1 ≤ c.current_date.month) (h2 : c.current_date.month ≤ 12) :
    ∃ g, c.get_month_grid = some g ∧
      g.map List.length = [7, 7, 7, 7, 7, 7] ∧
      (∀ w, w < 6 → ∀ p, p < 7 →
        cellAt g w p =
          gridSpecCell (numDaysFromSunday ⟨c.current_date.year, c.current_date.month, 1⟩)
            (daysInMonthOf c.current_date.year c.current_date.month) (7 * w + p)) ∧
      cellAt g 0 (numDaysFromSunday ⟨c.current_date.year, c.current_date.month, 1⟩) = some 1 ∧
      countSome g = daysInMonthOf c.current_date.year c.current_date.month := by
  have hfw := numDaysFromSunday_lt ⟨c.current_date.year, c.current_date.month, 1⟩
  have hdb := daysInMonthOf_bounds c.current_date.year c.current_date.month
  obtain ⟨hshape, hchar, hcount⟩ :=
    gridOK_all _ hfw (daysInMonthOf c.current_date.year c.current_date.month)
      (by omega) (by omega)
  refine ⟨_, get_month_grid_eq c h1 h2, hshape, hchar, ?_, hcount⟩
  rw [hchar 0 (by omega) _ hfw]
  unfold gridSpecCell
  rw [if_pos (by omega)]
  congr 1
  omega

/-- Witness for C1 at the October 2021 anchor. -/
theorem grid_layout_spec_witness :
    ∃ g, (⟨⟨2021, 10, 10⟩, ⟨2021, 10, 10⟩, 0⟩ : Calendar).get_month_grid = some g ∧
      g.map List.length = [7, 7, 7, 7, 7, 7] ∧
      (∀ w, w < 6 → ∀ p, p < 7 →
        cellAt g w p = gridSpecCell (numDaysFromSunday ⟨2021, 10, 1⟩)
          (daysInMonthOf 2021 10) (7 * w + p)) ∧
      cellAt g 0 (numDaysFromSunday ⟨2021, 10, 1⟩) = some 1 ∧
      countSome g = daysInMonthOf 2021 10 :=
  grid_layout_spec ⟨⟨2021, 10, 10⟩, ⟨2021, 10, 10⟩, 0⟩ (by decide) (by decide)

/-- C3: the claim is the spec's and the repository's own test's intent, but
the code stores the target month's first day as a **UTC** instant while
every read is local, so in any locale west of UTC (negative offset, here
UTC-5 = -18000 s) the anchor's local date lands on the last day of the
preceding month and the displayed month does not move as claimed: advancing
from December 2021 reads back as December 31, 2021 (not January 2022), and
retreating from January 2021 reads back as November 30, 2020 (not December
2020).  With a non-negative offset the claimed first-of-month behaviour
holds, confirming the offset store as the slip. -/
theorem month_navigation_offset_bug :
    Calendar.next_month ⟨⟨2021, 12, 15⟩, ⟨2021, 12, 15⟩, -18000⟩ =
      some ⟨⟨2021, 12, 31⟩, ⟨2021, 12, 15⟩, -18000⟩ ∧
    Calendar.prev_month ⟨⟨2021, 1, 15⟩, ⟨2021, 1, 15⟩, -18000⟩ =
      some ⟨⟨2020, 11, 30⟩, ⟨2021, 1, 15⟩, -18000⟩ ∧
    Calendar.next_month ⟨⟨2021, 12, 15⟩, ⟨2021, 12, 15⟩, 0⟩ =
      some ⟨⟨2022, 1, 1⟩, ⟨2021, 12, 15⟩, 0⟩ ∧
    Calendar.prev_month ⟨⟨2021, 1, 15⟩, ⟨2021, 1, 15⟩, 0⟩ =
      some ⟨⟨2020, 12, 1⟩, ⟨2021, 1, 15⟩, 0⟩ := by
  decide

/-- C4: the claimed advance-then-retreat roundtrip on the anchor's
(year, month) pair is the intent (the repository's own test asserts it),
but with a negative UTC offset (UTC-5 = -18000 s) the code's UTC store /
local read shifts each step back a day: from October 2021 the anchor
advances to a local date still in October (the 31st), and retreating from
there lands in August 2021 — two months before the starting month.  With a
non-negative offset the roundtrip restores (2021, 10) as claimed. -/
theorem advance_retreat_offset_bug :
    Calendar.next_month ⟨⟨2021, 10, 15⟩, ⟨2021, 10, 15⟩, -18000⟩ =
      some ⟨⟨2021, 10, 31⟩, ⟨2021, 10, 15⟩, -18000⟩ ∧
    Calendar.prev_month ⟨⟨2021, 10, 31⟩, ⟨2021, 10, 15⟩, -18000⟩ =
      some ⟨⟨2021, 8, 31⟩, ⟨2021, 10, 15⟩, -18000⟩ ∧
    Calendar.next_month ⟨⟨2021, 10, 15⟩, ⟨2021, 10, 15⟩, 0⟩ =
      some ⟨⟨2021, 11, 1⟩, ⟨2021, 10, 15⟩, 0⟩ ∧
    Calendar.prev_month ⟨⟨2021, 11, 1⟩, ⟨2021, 10, 15⟩, 0⟩ =
      some ⟨⟨2021, 10, 1⟩, ⟨2021, 10, 15⟩, 0⟩ := by
  decide


lemma destCell_left (grid : List (List (Option Nat))) (w p : Nat) :
    destCell grid w p "left" = if p > 0 then cellAt grid w (p - 1) else none := by
  unfold destCell; rw [if_pos rfl]

lemma destCell_right (grid : List (List (Option Nat))) (w p : Nat) :
    destCell grid w p "right" = if p < 6 then cellAt grid w (p + 1) else none := by
  unfold destCell; rw [if_neg (by decide), if_pos rfl]

lemma destCell_up (grid : List (List (Option Nat))) (w p : Nat) :
    destCell grid w p "up" = if w > 0 then cellAt grid (w - 1) p else none := by
  unfold destCell; rw [if_neg (by decide), if_neg (by decide), if_pos rfl]

lemma destCell_down (grid : List (List (Option Nat))) (w p : Nat) :
    destCell grid w p "down" = if w < 5 then cellAt grid (w + 1) p else none := by
  unfold destCell; rw [if_neg (by decide), if_neg (by decide), if_neg (by decide), if_pos rfl]

/-- C2, amended: for a valid anchor month and a direction among left, right,
up, down, `move_selection` scans the grid for the selected day's number
(position defaulting to `(0, 0)` when absent); when the destination cell one
step away exists in the 6×7 grid and holds a day number that is also a valid
day-of-month of `selected_date`'s own month, the selection's day-of-month is
set to that number (month and year unchanged, anchor unchanged) and the call
returns `true`; when the destination is outside the grid or empty, the call
returns `false` and the whole state is unchanged.  (The unamended claim
omits the validity proviso on the destination day number; without it the
code panics, see the counterexample.) -/
theorem move_selection_spec (c : Calendar) (direction : String)
    (grid : List (List (Option Nat))) (w p : Nat)
    (hm1 : 1 ≤ c.current_date.month) (hm2 : c.current_date.month ≤ 12)
    (hg : c.get_month_grid = some grid)
    (hwp : (findPos c.selected_date.day grid).getD (0, 0) = (w, p))
    (hdir : direction = "left" ∨ direction = "right" ∨ direction = "up" ∨ direction = "down")
    (hdest : ∀ nd, destCell grid w p direction = some nd →
      nd ≤ daysInMonthOf c.selected_date.year c.selected_date.month) :
    (∀ nd, destCell grid w p direction = some nd →
      c.move_selection direction =
        some ({ c with selected_date := { c.selected_date with day := nd } }, true)) ∧
    (destCell grid w p direction = none →
      c.move_selection direction = some (c, false)) := by
  have hge := get_month_grid_eq c hm1 hm2
  rw [hg] at hge
  injection hge with hge
  have hfw := numDaysFromSunday_lt ⟨c.current_date.year, c.current_date.month, 1⟩
  have hdb := daysInMonthOf_bounds c.current_date.year c.current_date.month
  have hone : ∀ w' p' nd, cellAt grid w' p' = some nd → 1 ≤ nd := by
    intro w' p' nd hcc
    rw [hge] at hcc
    exact (cell_range _ _ _ _ _ hfw (by omega) (by omega) hcc).1
  have hwd : ∀ w' p' nd, cellAt grid w' p' = some nd →
      nd ≤ daysInMonthOf c.selected_date.year c.selected_date.month →
      c.selected_date.with_day nd = some { c.selected_date with day := nd } := by
    intro w' p' nd hcc hb
    unfold Date.with_day
    rw [if_pos ⟨hone w' p' nd hcc, hb⟩]
  rcases hdir with h | h | h | h <;> subst h
  · constructor
    · intro nd hdc
      rw [destCell_left] at hdc
      by_cases hp : p > 0
      · rw [if_pos hp] at hdc
        rw [destCell_left] at hdest
        unfold Calendar.move_selection
        simp only [hg, hwp]
        rw [if_pos trivial, if_pos hp, hdc]
        simp only [hwd w (p - 1) nd hdc (hdest nd (by rw [if_pos hp]; exact hdc))]
      · rw [if_neg hp] at hdc; cases hdc
    · intro hdc
      rw [destCell_left] at hdc
      unfold Calendar.move_selection
      simp only [hg, hwp]
      rw [if_pos trivial]
      by_cases hp : p > 0
      · rw [if_pos hp] at hdc
        rw [if_pos hp, hdc]
      · rw [if_neg hp]
  · constructor
    · intro nd hdc
      rw [destCell_right] at hdc
      by_cases hp : p < 6
      · rw [if_pos hp] at hdc
        rw [destCell_right] at hdest
        unfold Calendar.move_selection
        simp only [hg, hwp]
        rw [if_neg (by decide), if_pos trivial, if_pos hp, hdc]
        simp only [hwd w (p + 1) nd hdc (hdest nd (by rw [if_pos hp]; exact hdc))]
      · rw [if_neg hp] at hdc; cases hdc
    · intro hdc
      rw [destCell_right] at hdc
      unfold Calendar.move_selection
      simp only [hg, hwp]
      rw [if_neg (by decide), if_pos trivial]
      by_cases hp : p < 6
      · rw [if_pos hp] at hdc
        rw [if_pos hp, hdc]
      · rw [if_neg hp]
  · constructor
    · intro nd hdc
      rw [destCell_up] at hdc
      by_cases hp : w > 0
      · rw [if_pos hp] at hdc
        rw [destCell_up] at hdest
        unfold Calendar.move_selection
        simp only [hg, hwp]
        rw [if_neg (by decide), if_neg (by decide), if_pos trivial, if_pos hp, hdc]
        simp only [hwd (w - 1) p nd hdc (hdest nd (by rw [if_pos hp]; exact hdc))]
      · rw [if_neg hp] at hdc; cases hdc
    · intro hdc
      rw [destCell_up] at hdc
      unfold Calendar.move_selection
      simp only [hg, hwp]
      rw [if_neg (by decide), if_neg (by decide), if_pos trivial]
      by_cases hp : w > 0
      · rw [if_pos hp] at hdc
        rw [if_pos hp, hdc]
      · rw [if_neg hp]
  · constructor
    · intro nd hdc
      rw [destCell_down] at hdc
      by_cases hp : w < 5
      · rw [if_pos hp] at hdc
        rw [destCell_down] at hdest
        unfold Calendar.move_selection
        simp only [hg, hwp]
        rw [if_neg (by decide), if_neg (by decide), if_neg (by decide), if_pos trivial,
          if_pos hp, hdc]
        simp only [hwd (w + 1) p nd hdc (hdest nd (by rw [if_pos hp]; exact hdc))]
      · rw [if_neg hp] at hdc; cases hdc
    · intro hdc
      rw [destCell_down] at hdc
      unfold Calendar.move_selection
      simp only [hg, hwp]
      rw [if_neg (by decide), if_neg (by decide), if_neg (by decide), if_pos trivial]
      by_cases hp : w < 5
      · rw [if_pos hp] at hdc
        rw [if_pos hp, hdc]
      · rw [if_neg hp]

/-- Witness for C2: anchor October 2021, selected October 10 (found at grid
position `(2, 0)`), moving right lands on day 11. -/
theorem move_selection_spec_witness :
    Calendar.move_selection ⟨⟨2021, 10, 1⟩, ⟨2021, 10, 10⟩, 0⟩ "right" =
      some (⟨⟨2021, 10, 1⟩, ⟨2021, 10, 11⟩, 0⟩, true) := by
  have h := (move_selection_spec ⟨⟨2021, 10, 1⟩, ⟨2021, 10, 10⟩, 0⟩ "right"
      (buildGrid 5 31) 2 0 (by decide) (by decide) (by decide) (by decide)
      (Or.inr (Or.inl rfl))
      (by
        intro nd hnd
        have e : destCell (buildGrid 5 31) 2 0 "right" = some 11 := by decide
        rw [e] at hnd
        injection hnd with hnd
        subst hnd
        decide)).1 11 (by decide)
  exact h

/-- The claim of C2 as literally stated is false: with anchor March 2021 and
selected day 2021-02-28 (grid position `(4, 0)`), the destination cell to
the right holds day 29, yet `move_selection` neither returns `true` with the
selection moved to day 29 nor returns `false` with the state unchanged — it
panics. -/
theorem move_selection_claim_counterexample :
    (⟨⟨2021, 3, 1⟩, ⟨2021, 2, 28⟩, 0⟩ : Calendar).get_month_grid = some (buildGrid 1 31) ∧
    (findPos 28 (buildGrid 1 31)).getD (0, 0) = (4, 0) ∧
    destCell (buildGrid 1 31) 4 0 "right" = some 29 ∧
    Calendar.move_selection ⟨⟨2021, 3, 1⟩, ⟨2021, 2, 28⟩, 0⟩ "right" ≠
      some (⟨⟨2021, 3, 1⟩, ⟨2021, 2, 29⟩, 0⟩, true) ∧
    Calendar.move_selection ⟨⟨2021, 3, 1⟩, ⟨2021, 2, 28⟩, 0⟩ "right" ≠
      some (⟨⟨2021, 3, 1⟩, ⟨2021, 2, 28⟩, 0⟩, false) := by
  decide

/-- C10 is a code bug: with anchor March 2021 and selected day 2021-02-28,
moving right reaches the cell holding day 29, `with_day 29` on the February
selected date is undefined, and the `unwrap` in `move_selection` panics
(modelled as `none`). -/
theorem move_selection_unwrap_panic :
    destCell (buildGrid 1 31) 4 0 "right" = some 29 ∧
    Date.with_day ⟨2021, 2, 28⟩ 29 = none ∧
    Calendar.move_selection ⟨⟨2021, 3, 1⟩, ⟨2021, 2, 28⟩, 0⟩ "right" = none := by
  decide

/-! ## Event-store lemmas -/

lemma lookup_hmInsert_self (l : List (Nat × Event)) (k : Nat) (v : Event) :
    (hmInsert l k v).lookup k = some v := by
  unfold hmInsert
  simp [List.lookup]

lemma lookup_filter_ne_self (l : List (Nat × Event)) (k : Nat) :
    (l.filter (fun q => q.1 != k)).lookup k = none := by
  induction l with
  | nil => rfl
  | cons a t ih =>
    obtain ⟨a1, a2⟩ := a
    by_cases ha : a1 = k
    · have hb : ((a1, a2).1 != k) = false := by simp [ha]
      rw [List.filter_cons, hb]
      exact ih
    · have hb : ((a1, a2).1 != k) = true := by simp [ha]
      rw [List.filter_cons, hb]
      have hk : (k == a1) = false := by simp [Ne.symm ha]
      simp [List.lookup, hk, ih]

lemma lookup_hmInsert_ne (l : List (Nat × Event)) (k k' : Nat) (v : Event)
    (hne : k' ≠ k) : (hmInsert l k v).lookup k' = l.lookup k' := by
  unfold hmInsert
  have h1 : (k' == k) = false := by simp [hne]
  simp only [List.lookup, h1]
  induction l with
  | nil => rfl
  | cons a t ih =>
    obtain ⟨a1, a2⟩ := a
    by_cases ha : a1 = k
    · have hb : ((a1, a2).1 != k) = false := by simp [ha]
      rw [List.filter_cons, hb]
      have hk : (k' == a1) = false := by subst ha; exact h1
      simp [List.lookup, hk, ih]
    · have hb : ((a1, a2).1 != k) = true := by simp [ha]
      rw [List.filter_cons, hb]
      by_cases hk : k' = a1
      · subst hk
        simp [List.lookup]
      · have hk2 : (k' == a1) = false := by simp [hk]
        simp [List.lookup, hk2, ih]

lemma mem_values_filter (l : List (Nat × Event)) (f : Nat × Event → Bool) (e : Event)
    (h : e ∈ (l.filter f).map Prod.snd) : e ∈ l.map Prod.snd := by
  simp only [List.mem_map] at h ⊢
  obtain ⟨q, hq, rfl⟩ := h
  exact ⟨q, List.mem_of_mem_filter hq, rfl⟩

lemma mem_values_hmInsert (l : List (Nat × Event)) (k : Nat) (v : Event) (e : Event)
    (h : e ∈ (hmInsert l k v).map Prod.snd) : e = v ∨ e ∈ l.map Prod.snd := by
  unfold hmInsert at h
  rw [List.map_cons] at h
  rcases List.mem_cons.1 h with h | h
  · left; exact h
  · right; exact mem_values_filter _ _ _ h

lemma Event.new_ok (id : Nat) (title : String) (description : Option String)
    (s e : LDateTime) (ev : Event)
    (h : Event.new id title description s e = .ok ev) :
    ev = ⟨id, title, description, s, e⟩ ∧ linstant s < linstant e := by
  unfold Event.new at h
  split_ifs at h with hc
  injection h with h
  exact ⟨h.symm, by omega⟩

/-- C5: `Event::new` returns the fully-formed event (with the freshly drawn
identifier and exactly the given fields) precisely when the start instant is
strictly before the end instant, and fails with the invalid-time-range error
precisely when the end instant is at or before the start instant. -/
theorem create_event_validation (id : Nat) (title : String) (description : Option String)
    (start_time end_time : LDateTime) :
    (Event.new id title description start_time end_time =
        .ok ⟨id, title, description, start_time, end_time⟩ ↔
      linstant start_time < linstant end_time) ∧
    (Event.new id title description start_time end_time = .error .invalidTimeRange ↔
      linstant end_time ≤ linstant start_time) := by
  unfold Event.new
  split_ifs with hc
  · exact ⟨⟨fun h => by simp at h, fun h => by omega⟩, ⟨fun _ => hc, fun _ => rfl⟩⟩
  · exact ⟨⟨fun _ => by omega, fun _ => rfl⟩, ⟨fun h => by simp at h, fun h => by omega⟩⟩

/-- C6: after `add_event e`, `get_event e.id` returns `e` (and the returned
identifier is `e.id`); `delete_event id` fails with the not-found error
exactly when `id` is absent; and after a successful `delete_event id` the
identifier is gone and a second `delete_event id` fails with not-found. -/
theorem store_insert_delete_spec (m : EventManager) (e : Event) (id : Nat) :
    (∀ i m', m.add_event e = .ok (i, m') → i = e.id ∧ m'.get_event e.id = some e) ∧
    (m.delete_event id = .error .notFound ↔ m.get_event id = none) ∧
    (∀ m', m.delete_event id = .ok m' →
      m'.get_event id = none ∧ m'.delete_event id = .error .notFound) := by
  refine ⟨?_, ?_, ?_⟩
  · intro i m' h
    unfold EventManager.add_event at h
    injection h with h
    rw [Prod.mk.injEq] at h
    obtain ⟨h1, h2⟩ := h
    subst h1
    subst h2
    exact ⟨rfl, lookup_hmInsert_self m.events e.id e⟩
  · unfold EventManager.delete_event EventManager.get_event
    cases hl : m.events.lookup id with
    | none => simp
    | some v => simp
  · intro m' h
    unfold EventManager.delete_event at h
    cases hl : m.events.lookup id with
    | none => rw [hl] at h; simp at h
    | some v =>
      rw [hl] at h
      injection h with h
      subst h
      have hnone : (m.events.filter (fun p => p.1 != id)).lookup id = none :=
        lookup_filter_ne_self m.events id
      constructor
      · exact hnone
      · unfold EventManager.delete_event
        simp only [hnone]

/-- Witness for C6 on a one-event store. -/
theorem store_insert_delete_spec_witness :
    (⟨[(7, sampleEvent)]⟩ : EventManager).get_event 7 = some sampleEvent ∧
    ((⟨[]⟩ : EventManager).delete_event 7 = .error .notFound ↔
      (⟨[]⟩ : EventManager).get_event 7 = none) ∧
    (⟨[(7, sampleEvent)]⟩ : EventManager).delete_event 7 = .ok ⟨[]⟩ ∧
    (⟨[]⟩ : EventManager).get_event 7 = none ∧
    (⟨[]⟩ : EventManager).delete_event 7 = .error .notFound := by
  have h1 := (store_insert_delete_spec ⟨[]⟩ sampleEvent 7).1 7 ⟨[(7, sampleEvent)]⟩ rfl
  have h2 := (store_insert_delete_spec ⟨[]⟩ sampleEvent 7).2.1
  have h3 := (store_insert_delete_spec ⟨[(7, sampleEvent)]⟩ sampleEvent 7).2.2 ⟨[]⟩ rfl
  exact ⟨h1.2, h2, rfl, h3.1, h3.2⟩

/-- C7: `list_events_for_day` returns exactly the stored events whose start
instant's calendar day equals the query's calendar day, regardless of
time-of-day and of the events' end instants. -/
theorem query_by_day_spec (m : EventManager) (date : LDateTime) (event : Event) :
    event ∈ m.list_events_for_day date ↔
      event ∈ m.list_events ∧ event.start_time.date = date.date := by
  unfold EventManager.list_events_for_day
  rw [List.mem_filter]
  simp [beq_iff_eq]

/-- C8: `edit_event` fails with the not-found error exactly when the
identifier is absent (the store unchanged, no new store produced); on
success the stored event under that identifier has the replacement's title,
description and times but keeps the original identifier regardless of the
identifier carried by the replacement, and every other identifier's entry
is unchanged. -/
theorem update_event_spec (m : EventManager) (id : Nat) (updated_event : Event) :
    (m.edit_event id updated_event = .error .notFound ↔ m.get_event id = none) ∧
    (∀ m', m.edit_event id updated_event = .ok m' →
      m'.get_event id = some { updated_event with id := id } ∧
      ∀ k, k ≠ id → m'.get_event k = m.get_event k) := by
  constructor
  · unfold EventManager.edit_event EventManager.get_event
    cases hl : m.events.lookup id with
    | none => simp
    | some v => simp
  · intro m' h
    unfold EventManager.edit_event at h
    cases hl : m.events.lookup id with
    | none => rw [hl] at h; simp at h
    | some v =>
      rw [hl] at h
      simp only [Option.isSome_some, if_true] at h
      injection h with h
      subst h
      constructor
      · exact lookup_hmInsert_self m.events id { updated_event with id := id }
      · intro k hk
        exact lookup_hmInsert_ne m.events id k _ hk

/-- Witness for C8: editing identifier 7 with a replacement carrying
identifier 9 keeps identifier 7. -/
theorem update_event_spec_witness :
    (⟨[(7, sampleEvent)]⟩ : EventManager).edit_event 7 sampleEvent2 =
      .ok ⟨[(7, ⟨7, "retro", some "notes", sampleStart, sampleEnd⟩)]⟩ ∧
    ((⟨[(7, ⟨7, "retro", some "notes", sampleStart, sampleEnd⟩)]⟩ : EventManager).get_event 7 =
      some ⟨7, "retro", some "notes", sampleStart, sampleEnd⟩) ∧
    ((⟨[]⟩ : EventManager).edit_event 7 sampleEvent2 = .error .notFound ↔
      (⟨[]⟩ : EventManager).get_event 7 = none) := by
  have h1 := (update_event_spec ⟨[(7, sampleEvent)]⟩ 7 sampleEvent2).2
      ⟨[(7, ⟨7, "retro", some "notes", sampleStart, sampleEnd⟩)]⟩ rfl
  have h2 := (update_event_spec ⟨[]⟩ 7 sampleEvent2).1
  exact ⟨rfl, h1.1, h2⟩

/-- C9: every store reachable from the empty store through the public
operations, with events produced only by the validated constructor, holds
only events whose end instant is strictly after their start instant. -/
theorem store_time_invariant (m : EventManager) (h : Reachable m) :
    ∀ ev ∈ m.list_events, linstant ev.start_time < linstant ev.end_time := by
  induction h with
  | empty => intro ev hev; simp [EventManager.list_events] at hev
  | add hr hnew hadd ih =>
    intro ev hev
    unfold EventManager.add_event at hadd
    injection hadd with hadd
    rw [Prod.mk.injEq] at hadd
    obtain ⟨h1, h2⟩ := hadd
    subst h2
    rcases mem_values_hmInsert _ _ _ _ hev with hcase | hcase
    · obtain ⟨hev0, hlt⟩ := Event.new_ok _ _ _ _ _ _ hnew
      subst hcase
      rw [hev0]
      exact hlt
    · exact ih ev hcase
  | edit hr hnew hedit ih =>
    intro ev hev
    unfold EventManager.edit_event at hedit
    split_ifs at hedit with hif
    injection hedit with hedit
    subst hedit
    rcases mem_values_hmInsert _ _ _ _ hev with hcase | hcase
    · obtain ⟨hev0, hlt⟩ := Event.new_ok _ _ _ _ _ _ hnew
      subst hcase
      rw [hev0]
      exact hlt
    · exact ih ev hcase
  | del hr hdel ih =>
    intro ev hev
    unfold EventManager.delete_event at hdel
    split at hdel
    · injection hdel with hdel
      subst hdel
      exact ih ev (mem_values_filter _ _ _ hev)
    · simp at hdel

/-- Witness for C9: a store reached by one validated insertion satisfies the
time invariant on its one event. -/
theorem store_time_invariant_witness :
    linstant sampleEvent.start_time < linstant sampleEvent.end_time := by
  have hnew : Event.new 7 "standup" none sampleStart sampleEnd = .ok sampleEvent := by
    unfold Event.new sampleEvent sampleStart sampleEnd
    rw [if_neg (by decide)]
  have hr : Reachable ⟨[(7, sampleEvent)]⟩ :=
    Reachable.add Reachable.empty hnew rfl
  exact store_time_invariant ⟨[(7, sampleEvent)]⟩ hr sampleEvent
    (by simp [EventManager.list_events, hmInsert])
